import Mathlib

/-!
Verification of the worldsys customer-file ingestion engine.

The definitions below are shallow embeddings of the TypeScript/JavaScript
sources:
  * `src/services/fileProcessorWorker.js`   (chunk worker: validateLine,
    parseLine, processChunk)
  * `src/services/databaseService.ts`       (ConcurrentProcessor: createChunks,
    processChunksWithWorkers, rate computation, re-entrancy guard)
  * the full CustomerService (sequential batcher, mode selector) and the
    simpler CustomerService variant (`src/services/customerService.ts`).

Lines are modelled as `List Char`; the store (the customers table, as far as
duplicate checks can see it) as a `List CustomerRec`.  Database exceptions and
transaction failures are not modelled: all executions below are the
no-failure executions of the source.
-/

/-- The character class of the JavaScript regular-expression escape
backslash-s, which is also the set stripped by String.prototype.trim:
tab, LF, VT, FF, CR, space, NBSP, and the Unicode space separators. -/
def jsWhitespaceChars : List Char :=
  [' ', '\t', '\n', '\r', '\x0b', '\x0c', '\u00A0', '\u1680',
   '\u2000', '\u2001', '\u2002', '\u2003', '\u2004', '\u2005', '\u2006',
   '\u2007', '\u2008', '\u2009', '\u200A', '\u2028', '\u2029', '\u202F',
   '\u205F', '\u3000', '\uFEFF']

/-- `c` is whitespace in the JavaScript sense (backslash-s / trim). -/
def jsIsSpace (c : Char) : Bool := jsWhitespaceChars.contains c

/-- JavaScript `String.prototype.trim`: strip leading and trailing
whitespace. -/
def jsTrim (s : List Char) : List Char :=
  ((s.dropWhile jsIsSpace).reverse.dropWhile jsIsSpace).reverse

/-- JavaScript `String.prototype.split` with a one-character separator:
`"".split(sep)` is `[""]`, and every separator occurrence starts a new
(possibly empty) field. -/
def splitOnChar (sep : Char) : List Char → List (List Char)
  | [] => [[]]
  | c :: cs =>
    match splitOnChar sep cs with
    | [] => [[]]
    | p :: ps => if c = sep then [] :: p :: ps else (c :: p) :: ps

/-- `line.split('|')`, the field-delimiter split used by the parser. -/
def splitPipe (line : List Char) : List (List Char) := splitOnChar '|' line

/-- ASCII decimal digit. -/
def isDigitChar (c : Char) : Bool := '0' ≤ c && c ≤ '9'

/-- Value of a digit string, most significant first. -/
def digitsToNat (ds : List Char) : Nat :=
  ds.foldl (fun acc c => acc * 10 + (c.toNat - 48)) 0

/-- JavaScript `parseInt(s)` (radix 10): skip leading whitespace, take an
optional single sign, then the longest prefix of decimal digits; `none`
models the NaN result when no digit is found. -/
def jsParseInt (s : List Char) : Option Int :=
  let t := s.dropWhile jsIsSpace
  let signAndRest : Bool × List Char :=
    match t with
    | '-' :: rest => (true, rest)
    | '+' :: rest => (false, rest)
    | _ => (false, t)
  let ds := signAndRest.2.takeWhile isDigitChar
  if ds = [] then none
  else if signAndRest.1 then some (-(digitsToNat ds : Int))
  else some ((digitsToNat ds : Int))

/-- Test of the source's email regular expression
`^[^\s@]+@[^\s@]+\.[^\s@]+$` on a whole string.  A match is a decomposition
`pre ++ "@" ++ post` where `pre` and `post` are nonempty, free of whitespace
(both classes already exclude `@`, so the string has exactly one `@`, i.e.
`split('@')` yields exactly two fields), and `post` decomposes as
`B ++ "." ++ C` with `B`, `C` nonempty — equivalently `post` has a dot at
some position other than its first and last character. -/
def emailRegexTest (s : List Char) : Bool :=
  match splitOnChar '@' s with
  | [pre, post] =>
      !pre.isEmpty &&
      pre.all (fun c => !jsIsSpace c) &&
      post.all (fun c => !jsIsSpace c) &&
      (post.drop 1).dropLast.contains '.'
  | _ => false

/-- The `isNaN(parsedAge) || parsedAge < 0 || parsedAge > 150` age check,
phrased positively: the parse produced a number in `[0, 150]`. -/
def ageInRange : Option Int → Bool
  | none => false
  | some n => !(n < 0 || 150 < n)

/-- A parsed customer record; `age = none` models the NaN produced by
`parseInt` on a digit-free field. -/
structure CustomerRec where
  customerId : List Char
  firstName : List Char
  lastName : List Char
  email : List Char
  age : Option Int
deriving DecidableEq, Repr

/-- `validateLine` of `fileProcessorWorker.js` (lines 113–155); the full
CustomerService's `validateLine` is character-for-character identical.
Empty-string falsiness of the JS guards is `= []`; the destructuring
`[customerId, firstName, lastName, email, age] = parts` is `getD` (the
length guard has already ensured five fields exist). -/
def validateLine (line : List Char) : Bool :=
  if line = [] || jsTrim line = [] then false
  else
    let parts := splitPipe line
    if parts.length < 5 then false
    else
      let customerId := parts.getD 0 []
      let firstName := parts.getD 1 []
      let lastName := parts.getD 2 []
      let email := parts.getD 3 []
      let age := parts.getD 4 []
      if customerId = [] || firstName = [] || lastName = [] then false
      else if jsTrim customerId = [] then false
      else if email ≠ [] && jsTrim email ≠ [] && !emailRegexTest (jsTrim email) then
        false
      else if age ≠ [] && jsTrim age ≠ [] && !ageInRange (jsParseInt (jsTrim age)) then
        false
      else true

/-- `parseLine` of `fileProcessorWorker.js` (lines 157–168) = the full
CustomerService's `parseLine`: the first five raw fields, verbatim, with
`age: parseInt(age)`. -/
def parseLine (line : List Char) : CustomerRec :=
  let parts := splitPipe line
  { customerId := parts.getD 0 []
    firstName := parts.getD 1 []
    lastName := parts.getD 2 []
    email := parts.getD 3 []
    age := jsParseInt (parts.getD 4 []) }

/-- `validateLine` of the simpler CustomerService variant
(`src/services/customerService.ts` lines 59–84): no blank-line check, the
email regex is applied to the raw (untrimmed) field, `parseInt` to the raw
age, and the three required fields are only checked for `length > 0`. -/
def simpleValidateLine (line : List Char) : Bool :=
  let parts := splitPipe line
  if parts.length < 5 then false
  else
    let customerId := parts.getD 0 []
    let firstName := parts.getD 1 []
    let lastName := parts.getD 2 []
    let email := parts.getD 3 []
    let age := parts.getD 4 []
    if email ≠ [] && !emailRegexTest email then false
    else if age ≠ [] && !ageInRange (jsParseInt age) then false
    else decide (0 < customerId.length) && decide (0 < firstName.length) &&
         decide (0 < lastName.length)

/-- `ProcessingChunk` of `databaseService.ts`. -/
structure Chunk where
  startLine : Nat
  endLine : Nat
  chunkId : Nat
deriving DecidableEq, Repr

/-- The loop body of `ConcurrentProcessor.createChunks` (lines 124–138):
`for (startLine = 0; startLine < totalLines; startLine += chunkSize)` pushing
`{startLine, endLine: min(startLine + chunkSize, totalLines), chunkId++}`.
The `0 < chunkSize` conjunct only makes the model total: the JS loop does not
terminate for `chunkSize = 0`, a case the source never exercises (the
constructor uses 4·1000 and the CustomerService passes 10000). -/
def createChunksAux (chunkSize totalLines startLine chunkId : Nat) : List Chunk :=
  if h : startLine < totalLines ∧ 0 < chunkSize then
    { startLine := startLine
      endLine := min (startLine + chunkSize) totalLines
      chunkId := chunkId } ::
      createChunksAux chunkSize totalLines (startLine + chunkSize) (chunkId + 1)
  else []
termination_by totalLines - startLine
decreasing_by omega

/-- `ConcurrentProcessor.createChunks totalLines` with the processor's
`chunkSize`. -/
def createChunks (chunkSize totalLines : Nat) : List Chunk :=
  createChunksAux chunkSize totalLines 0 0

/-- The line filter of the chunk worker (`fileProcessorWorker.js` line 35):
a line is consumed unless `currentLine < chunk.startLine || currentLine >
chunk.endLine`; `currentLine` is incremented before the test, so the first
line of the file has `currentLine = 1`. -/
def workerConsumes (ch : Chunk) (currentLine : Nat) : Bool :=
  !(decide (currentLine < ch.startLine) || decide (ch.endLine < currentLine))

/-- The per-run counters `{processed, errors, duplicates}`. -/
structure Stats3 where
  processed : Nat
  errors : Nat
  duplicates : Nat
deriving DecidableEq, Repr

/-- Componentwise sum of counters (the aggregation folds of
`processChunksWithWorkers` and `aggregateResults`). -/
def addStats (a b : Stats3) : Stats3 :=
  { processed := a.processed + b.processed
    errors := a.errors + b.errors
    duplicates := a.duplicates + b.duplicates }

/-- One customer lookup by key `customerId` (the worker's
`SELECT TOP 1 customerId FROM customers WHERE customerId = @customerId`,
and `findOne({where: {customerId}})` of the batcher). -/
def existsById (store : List CustomerRec) (c : CustomerRec) : Bool :=
  store.any (fun r => r.customerId == c.customerId)

/-- The per-line loop of the worker's `processChunk`
(`fileProcessorWorker.js` lines 31–77), happy path: skip lines outside the
chunk per `workerConsumes`; on a consumed line, validate → on failure count
an error; on success check existence by `customerId` → duplicate, else
insert and count processed.  The store threads the worker's own
transactional view of the table. -/
def workerGo (ch : Chunk) (currentLine : Nat) (store : List CustomerRec)
    (stats : Stats3) : List (List Char) → Stats3 × List CustomerRec
  | [] => (stats, store)
  | l :: ls =>
    let cl := currentLine + 1
    if !workerConsumes ch cl then workerGo ch cl store stats ls
    else if validateLine l then
      let c := parseLine l
      if existsById store c then
        workerGo ch cl store { stats with duplicates := stats.duplicates + 1 } ls
      else
        workerGo ch cl (store ++ [c]) { stats with processed := stats.processed + 1 } ls
    else workerGo ch cl store { stats with errors := stats.errors + 1 } ls

/-- A whole worker run over the file for one chunk, starting from the given
view of the store. -/
def processChunk (file : List (List Char)) (ch : Chunk)
    (store : List CustomerRec) : Stats3 × List CustomerRec :=
  workerGo ch 0 store ⟨0, 0, 0⟩ file

/-- `CustomerService.processBatch` (full variant, lines 162–200), happy
path: for each record of the batch, inside one transaction, check existence
by `customerId`; if present count a duplicate and skip, else save and count
processed. -/
def processBatch (store : List CustomerRec) (batch : List CustomerRec) :
    Stats3 × List CustomerRec :=
  batch.foldl
    (fun acc c =>
      if existsById acc.2 c then
        ({ acc.1 with duplicates := acc.1.duplicates + 1 }, acc.2)
      else
        ({ acc.1 with processed := acc.1.processed + 1 }, acc.2 ++ [c]))
    (⟨0, 0, 0⟩, store)

/-- `BATCH_SIZE` of the full CustomerService. -/
def BATCH_SIZE : Nat := 100

/-- The line loop of `CustomerService.processFileSequentially` (lines
97–146): buffer valid records, flush a batch through `processBatch` when the
buffer reaches `BATCH_SIZE`, count an error on invalid lines, and flush the
remainder after the last line. -/
def seqGo (store : List CustomerRec) (batch : List CustomerRec)
    (stats : Stats3) : List (List Char) → Stats3 × List CustomerRec
  | [] =>
    if batch.length > 0 then
      let r := processBatch store batch
      (addStats stats r.1, r.2)
    else (stats, store)
  | l :: ls =>
    if validateLine l then
      let batch2 := batch ++ [parseLine l]
      if BATCH_SIZE ≤ batch2.length then
        let r := processBatch store batch2
        seqGo r.2 [] (addStats stats r.1) ls
      else seqGo store batch2 stats ls
    else seqGo store batch { stats with errors := stats.errors + 1 } ls

/-- The sequential path over a whole file. -/
def processFileSequentially (store : List CustomerRec)
    (file : List (List Char)) : Stats3 × List CustomerRec :=
  seqGo store [] ⟨0, 0, 0⟩ file

/-- The pooled path's final counters: `createChunks` over the exact line
count, one worker per chunk (each worker opens its own connection and
transaction, so each starts from the same initial view of the store), and
`aggregateResults` summing the per-chunk `WorkerResult`s. -/
def pooledCounts (chunkSize : Nat) (store : List CustomerRec)
    (file : List (List Char)) : Stats3 :=
  (createChunks chunkSize file.length).foldl
    (fun acc ch => addStats acc (processChunk file ch store).1) ⟨0, 0, 0⟩

/-- Result shape of the simpler CustomerService variant, which has no
`duplicates` counter at all. -/
structure SimpleCounts where
  processed : Nat
  errors : Nat
deriving DecidableEq, Repr

/-- The per-line loop of the simpler variant's `processCustomersFile`
(`src/services/customerService.ts` lines 28–54), happy path: validate with
`simpleValidateLine`; on success look a customer up by `customerId` OR
`email` (`findOne({where: [{customerId}, {email}]})`); if found, count an
ERROR and skip; otherwise save and count processed.  An invalid line is
silently skipped (no counter). -/
def simpleGo (counts : SimpleCounts) (store : List CustomerRec) :
    List (List Char) → SimpleCounts × List CustomerRec
  | [] => (counts, store)
  | l :: ls =>
    if simpleValidateLine l then
      let c := parseLine l
      if store.any (fun r => r.customerId == c.customerId || r.email == c.email) then
        simpleGo { counts with errors := counts.errors + 1 } store ls
      else
        simpleGo { counts with processed := counts.processed + 1 } (store ++ [c]) ls
    else simpleGo counts store ls

/-- The simpler variant over a whole file. -/
def simpleProcessFile (store : List CustomerRec) (file : List (List Char)) :
    SimpleCounts × List CustomerRec :=
  simpleGo ⟨0, 0⟩ store file

/-- `CONCURRENT_THRESHOLD` of the full CustomerService (line 25). -/
def CONCURRENT_THRESHOLD : Nat := 1000

/-- `Math.ceil(fileStats.size / 50)` (line 38): the estimated line count
from the byte size, at ~50 bytes per line; `(n + 49) / 50` is exactly that
ceiling on naturals. -/
def estimatedLines (fileSizeBytes : Nat) : Nat := (fileSizeBytes + 49) / 50

/-- The two ingestion paths. -/
inductive ProcessingMode where
  | concurrent : ProcessingMode
  | sequential : ProcessingMode
deriving DecidableEq, Repr

/-- The mode selector of `processCustomersFile` (lines 35–47):
`if (estimatedLines > CONCURRENT_THRESHOLD)` route to the concurrent path,
else to the sequential path. -/
def selectProcessingMode (fileSizeBytes : Nat) : ProcessingMode :=
  if CONCURRENT_THRESHOLD < estimatedLines fileSizeBytes then .concurrent
  else .sequential

/-- Entry guard of `ConcurrentProcessor.processFileConcurrently` (lines
87–94): `if (this.isProcessing) throw new Error('Already processing a
file')`, else the run proceeds (modelled as `ok`). -/
def processFileConcurrentlyGuard (isProcessing : Bool) : Except String Unit :=
  if isProcessing then .error ("Already processing a file") else .ok ()

/-- The full CustomerService's mutable `processingStats` (sequential runs),
with `startTime` abstracted away. -/
structure SeqStats where
  processed : Nat
  errors : Nat
  duplicates : Nat
  totalLines : Nat
  currentLine : Nat
deriving DecidableEq, Repr

/-- The fresh stats object assigned at the top of
`processFileSequentially`. -/
def initStats : SeqStats := ⟨0, 0, 0, 0, 0⟩

/-- Entry of `processFileSequentially` (lines 72–84): the method performs NO
re-entrancy check — whatever `this.processingStats` currently holds (the
argument), it unconditionally overwrites it with a fresh zeroed object and
proceeds. -/
def processFileSequentiallyEntry (_inFlight : Option SeqStats) :
    Except String (Option SeqStats) :=
  .ok (some initStats)

/-- A JavaScript `Number` as far as the rate computation needs it: NaN,
positive infinity, or an exact value (binary64 rounding is irrelevant to
sign and zeroness, which are all the claim speaks about). -/
inductive JsNum where
  | nan : JsNum
  | posInf : JsNum
  | val : ℚ → JsNum
deriving DecidableEq

/-- The rate fold of `processChunksWithWorkers` (lines 170–171):
`rate = processed / (elapsed / 1000)` where `elapsed` is in milliseconds.
JavaScript division of a positive number by zero yields Infinity and of
zero by zero yields NaN. -/
def computeRate (processed elapsedMs : Nat) : JsNum :=
  if elapsedMs = 0 then (if processed = 0 then .nan else .posInf)
  else .val ((processed : ℚ) / ((elapsedMs : ℚ) / 1000))

/-- State of the coordinator loop inside `processChunksWithWorkers` (lines
140–200): `next` is `nextChunkIndex`, `active` the key set of
`activeWorkers` in insertion order, `completed` is `completedChunks`,
`resolved` whether the promise has resolved, and `log` the sequence of chunk
ids dispatched so far (a history variable, recording the order in which
`processChunk` was invoked). -/
structure PoolState where
  next : Nat
  active : List Nat
  completed : Nat
  resolved : Bool
  log : List Nat
deriving DecidableEq, Repr

/-- `processNextChunk` (lines 146–155, 223): return unless there is a
pending chunk and a free worker slot; otherwise launch the chunk at the
cursor, advance the cursor, and register the worker as active. -/
def dispatchOne (numChunks maxWorkers : Nat) (s : PoolState) : PoolState :=
  if numChunks ≤ s.next then s
  else if maxWorkers ≤ s.active.length then s
  else
    { s with
      next := s.next + 1
      active := s.active ++ [s.next]
      log := s.log ++ [s.next] }

/-- The completion callback for an active chunk `c` (lines 156–188 and
226–230): the worker's message removes `c` from `activeWorkers`, the result
is folded and `completedChunks` incremented, `processNextChunk` runs again,
and the promise resolves when `completedChunks` reaches `chunks.length`. -/
def completeChunk (numChunks maxWorkers c : Nat) (s : PoolState) : PoolState :=
  let s1 := { s with active := s.active.erase c, completed := s.completed + 1 }
  let s2 := dispatchOne numChunks maxWorkers s1
  if s2.completed = numChunks then { s2 with resolved := true } else s2

/-- The coordinator's state before any chunk is launched. -/
def initPoolState : PoolState := ⟨0, [], 0, false, []⟩

/-- The start-up loop (lines 196–198):
`for (i = 0; i < Math.min(maxWorkers, chunks.length); i++)
processNextChunk()`. -/
def startPool (numChunks maxWorkers : Nat) : PoolState :=
  (dispatchOne numChunks maxWorkers)^[min maxWorkers numChunks] initPoolState

/-- One asynchronous event of a run: some active worker finishes its chunk
(completions may arrive in any order). -/
inductive PoolStep (numChunks maxWorkers : Nat) : PoolState → PoolState → Prop
  | complete (c : Nat) (s : PoolState) (hc : c ∈ s.active) :
      PoolStep numChunks maxWorkers s (completeChunk numChunks maxWorkers c s)

/-- The states a run with `numChunks` chunks and `maxWorkers` workers can
reach. -/
def PoolReachable (numChunks maxWorkers : Nat) (s : PoolState) : Prop :=
  Relation.ReflTransGen (PoolStep numChunks maxWorkers)
    (startPool numChunks maxWorkers) s

/-- A record already present for the C5 counterexample store. -/
def custA : CustomerRec :=
  ⟨"A".toList, "J".toList, "D".toList, "a@b.c".toList, some 30⟩

/-- C1: refutation evidence.  The claim says the chunk ranges as consumed by
the workers cover every line of the file exactly once.  For a 2-line file
with chunkSize 1 the planner produces the 0-based half-open ranges
`[0,1)` and `[1,2)`, but the worker filters 1-based `currentLine` with both
endpoints inclusive, so line 1 (the first line) is consumed by BOTH workers:
worker 0 processes 1 line and worker 1 processes 2 lines, 3 line
consumptions for a 2-line file. -/
theorem chunk_worker_line_overlap :
    createChunks 1 2 = [⟨0, 1, 0⟩, ⟨1, 2, 1⟩] ∧
    workerConsumes ⟨0, 1, 0⟩ 1 = true ∧
    workerConsumes ⟨1, 2, 1⟩ 1 = true ∧
    ((List.range 2).map (fun n => workerConsumes ⟨0, 1, 0⟩ (n + 1))).count true +
      ((List.range 2).map (fun n => workerConsumes ⟨1, 2, 1⟩ (n + 1))).count true = 3 := by
  refine ⟨by simp [createChunks, createChunksAux], by decide, by decide, by decide⟩

/-- C2: refutation evidence.  On the 2-line file `A|J|D||`, `B|J|D||`
(both lines valid and distinct), the sequential path's counters sum to 2 =
the number of file lines, but with chunkSize 1 the pooled path's aggregated
counters sum to 3, because the boundary line is consumed by two workers; the
two paths disagree on the total for the same file. -/
theorem path_totals_disagree :
    ((processFileSequentially [] ["A|J|D||".toList, "B|J|D||".toList]).1.processed +
      (processFileSequentially [] ["A|J|D||".toList, "B|J|D||".toList]).1.errors +
      (processFileSequentially [] ["A|J|D||".toList, "B|J|D||".toList]).1.duplicates = 2) ∧
    (pooledCounts 1 [] ["A|J|D||".toList, "B|J|D||".toList]).processed +
      (pooledCounts 1 [] ["A|J|D||".toList, "B|J|D||".toList]).errors +
      (pooledCounts 1 [] ["A|J|D||".toList, "B|J|D||".toList]).duplicates = 3 := by
  constructor
  · decide
  · have h : createChunks 1 2 = [⟨0, 1, 0⟩, ⟨1, 2, 1⟩] := by
      simp [createChunks, createChunksAux]
    simp only [pooledCounts, List.length_cons, List.length_nil]
    rw [h]
    decide

/-- C5: counterexample.  A valid line whose `customerId` (`A`) already
exists in the store: the simpler CustomerService variant finds the existing
row (it searches by `customerId` OR `email`) and counts it as an ERROR — it
has no duplicates counter at all — contradicting "both ingestion paths
increment duplicates (never errors)". -/
theorem simple_variant_duplicate_is_error :
    simpleValidateLine ("A|Jane|Doe|new@x.com|25".toList) = true ∧
    (simpleProcessFile [custA] ["A|Jane|Doe|new@x.com|25".toList]).1 = ⟨0, 1⟩ := by
  exact ⟨by decide, by decide⟩

/-- C7: counterexample.  Invoking the sequential path while a sequential run
is in flight (here with stats `processed = 5, …`) is NOT rejected: the entry
returns successfully and unconditionally replaces the in-flight run's stats
with a zeroed object, so the claim's "rejected immediately … regardless of
path" is false and the in-flight stats are clobbered. -/
theorem sequential_reentry_unguarded :
    processFileSequentiallyEntry (some ⟨5, 1, 2, 100, 42⟩) = .ok (some initStats) ∧
    initStats.processed = 0 ∧
    (∀ e : String, processFileSequentiallyEntry (some ⟨5, 1, 2, 100, 42⟩) ≠ .error e) := by
  refine ⟨rfl, rfl, fun e h => by simp [processFileSequentiallyEntry] at h⟩

/-- C7 (amended): only the pooled path has a re-entrancy guard: when its
processor is busy, `processFileConcurrently` fails fast with the distinct
"Already processing a file" condition; the sequential path performs no check
and always proceeds, resetting the shared `processingStats` to zeros
whatever run is in flight. -/
theorem reentrancy_guard_pooled_only (b : Bool) (hb : b = true)
    (inFlight : Option SeqStats) :
    processFileConcurrentlyGuard b = .error ("Already processing a file") ∧
    processFileSequentiallyEntry inFlight = .ok (some initStats) := by
  subst hb
  exact ⟨rfl, rfl⟩

/-- Witness for `reentrancy_guard_pooled_only` at `b = true` and an
in-flight sequential run. -/
theorem reentrancy_guard_pooled_only_witness :
    processFileConcurrentlyGuard true = .error ("Already processing a file") ∧
    processFileSequentiallyEntry (some ⟨5, 1, 2, 100, 42⟩) = .ok (some initStats) :=
  reentrancy_guard_pooled_only true rfl (some ⟨5, 1, 2, 100, 42⟩)

/-- C8: counterexample.  A 50000-byte file is estimated at exactly 1000
lines — exactly the configured threshold — and the Mode Selector routes it
to the SEQUENTIAL path (`estimatedLines > CONCURRENT_THRESHOLD` is strict),
while the claim requires the Pooled path when the estimate is at the
threshold. -/
theorem mode_threshold_counterexample :
    estimatedLines 50000 = CONCURRENT_THRESHOLD ∧
    selectProcessingMode 50000 = .sequential := by decide

/-- C8 (amended): the Mode Selector estimates `ceil(size / 50)` lines from
the byte size and routes to the Pooled path exactly when the estimate
STRICTLY exceeds the threshold; at or below the threshold it routes to the
Sequential path.  The two inequalities pin `estimatedLines` as the exact
ceiling of size/50. -/
theorem mode_selector_routing (fileSizeBytes : Nat) :
    (selectProcessingMode fileSizeBytes = .concurrent ↔
      CONCURRENT_THRESHOLD < estimatedLines fileSizeBytes) ∧
    50 * estimatedLines fileSizeBytes < fileSizeBytes + 50 ∧
    fileSizeBytes ≤ 50 * estimatedLines fileSizeBytes := by
  refine ⟨?_, ?_, ?_⟩
  · unfold selectProcessingMode
    split <;> simp [*]
  · unfold estimatedLines
    omega
  · unfold estimatedLines
    omega

/-- C9: counterexample.  At elapsed time 0 the rate computation
`processed / (elapsed / 1000)` divides by zero: with 5 records processed the
JavaScript result is Infinity, with 0 processed it is NaN — in neither case
0, contradicting "the rate equals 0 when the elapsed time is 0". -/
theorem rate_at_zero_elapsed :
    computeRate 5 0 = JsNum.posInf ∧
    computeRate 0 0 = JsNum.nan ∧
    JsNum.posInf ≠ JsNum.val 0 ∧
    JsNum.nan ≠ JsNum.val 0 := by
  refine ⟨rfl, rfl, by simp, by simp⟩

/-- C9 (amended): whenever the elapsed time is positive the aggregate rate
is an ordinary number ≥ 0; at elapsed time 0 the code produces Infinity
(processed > 0) or NaN (processed = 0), never 0. -/
theorem rate_nonneg_of_elapsed_pos (processed elapsedMs : Nat)
    (he : 0 < elapsedMs) :
    ∃ q : ℚ, computeRate processed elapsedMs = JsNum.val q ∧ 0 ≤ q := by
  refine ⟨(processed : ℚ) / ((elapsedMs : ℚ) / 1000), ?_, ?_⟩
  · unfold computeRate
    rw [if_neg (by omega)]
  · positivity

/-- Witness for `rate_nonneg_of_elapsed_pos` at 5 records in 1000 ms. -/
theorem rate_nonneg_of_elapsed_pos_witness :
    ∃ q : ℚ, computeRate 5 1000 = JsNum.val q ∧ 0 ≤ q :=
  rate_nonneg_of_elapsed_pos 5 1000 (by norm_num)

/-- C10: `parseLine` returns the first five pipe-split fields verbatim — no
trimming — and `age` is the JS `parseInt` of the raw fifth field, which is
NaN (`none`) when that field is empty; consequently the padded line
`C1| John | Doe |a@b.c|` passes validation yet parses to a record whose
`firstName` keeps its surrounding spaces and whose `age` is NaN. -/
theorem parseLine_verbatim_no_trim :
    (∀ line : List Char,
      parseLine line =
        { customerId := (splitPipe line).getD 0 []
          firstName := (splitPipe line).getD 1 []
          lastName := (splitPipe line).getD 2 []
          email := (splitPipe line).getD 3 []
          age := jsParseInt ((splitPipe line).getD 4 []) }) ∧
    jsParseInt [] = none ∧
    validateLine ("C1| John | Doe |a@b.c|".toList) = true ∧
    (parseLine ("C1| John | Doe |a@b.c|".toList)).firstName = (" John ".toList) ∧
    (parseLine ("C1| John | Doe |a@b.c|".toList)).age = none := by
  refine ⟨fun line => rfl, rfl, by decide, by decide, by decide⟩

/-- The validation rules exactly as claim C4 words them: non-blank line, at
least 5 pipe-separated fields, customerId / firstName / lastName each
non-empty AFTER TRIMMING, a non-empty email matches the regex, a non-empty
age parses to an integer in [0, 150].  This definition follows the claim's
words, not the source, and exists only to be compared against
`validateLine`. -/
def claimedValidateC4 (line : List Char) : Bool :=
  if jsTrim line = [] then false
  else
    let parts := splitPipe line
    if parts.length < 5 then false
    else if jsTrim (parts.getD 0 []) = [] || jsTrim (parts.getD 1 []) = [] ||
            jsTrim (parts.getD 2 []) = [] then false
    else if parts.getD 3 [] ≠ [] && !emailRegexTest (parts.getD 3 []) then false
    else if parts.getD 4 [] ≠ [] && !ageInRange (jsParseInt (parts.getD 4 [])) then false
    else true

/-- C4: counterexample.  On `C1|   |Doe||` the source's `validateLine`
returns true — `firstName` is three spaces, truthy and never trimmed — while
the claim's rules (firstName non-empty after trimming) reject the line, so
"returns true exactly when …" is false. -/
theorem validateLine_claim_counterexample :
    validateLine ("C1|   |Doe||".toList) = true ∧
    claimedValidateC4 ("C1|   |Doe||".toList) = false := by decide

/-- A string with a non-empty trim is non-empty. -/
theorem ne_nil_of_jsTrim_ne_nil {s : List Char} (h : jsTrim s ≠ []) : s ≠ [] := by
  intro h0
  subst h0
  exact h rfl

/-- C4 (amended): `validateLine` returns true exactly when: the line is not
blank; the pipe split has ≥ 5 fields; customerId, firstName, lastName are
non-empty as raw strings; customerId is additionally non-empty after
trimming (firstName and lastName are NOT trimmed); if the email field is
non-empty after trimming, the TRIMMED email matches the regex; and if the
age field is non-empty after trimming, JS `parseInt` of the trimmed age
yields an integer in [0, 150]. -/
theorem validateLine_characterization (line : List Char) :
    validateLine line = true ↔
      (jsTrim line ≠ [] ∧
       5 ≤ (splitPipe line).length ∧
       (splitPipe line).getD 0 [] ≠ [] ∧
       (splitPipe line).getD 1 [] ≠ [] ∧
       (splitPipe line).getD 2 [] ≠ [] ∧
       jsTrim ((splitPipe line).getD 0 []) ≠ [] ∧
       (jsTrim ((splitPipe line).getD 3 []) ≠ [] →
         emailRegexTest (jsTrim ((splitPipe line).getD 3 [])) = true) ∧
       (jsTrim ((splitPipe line).getD 4 []) ≠ [] →
         ageInRange (jsParseInt (jsTrim ((splitPipe line).getD 4 []))) = true)) := by
  unfold validateLine
  simp only [Bool.or_eq_true, Bool.and_eq_true, Bool.not_eq_true', decide_eq_true_eq]
  split_ifs with h1 h2 h3 h4 h5 h6
  · refine iff_of_false (by simp) ?_
    intro hc
    rcases h1 with h1 | h1
    · exact hc.1 (by rw [h1]; rfl)
    · exact hc.1 h1
  · refine iff_of_false (by simp) ?_
    intro hc
    omega
  · refine iff_of_false (by simp) ?_
    intro hc
    rcases h3 with (h | h) | h
    · exact hc.2.2.1 h
    · exact hc.2.2.2.1 h
    · exact hc.2.2.2.2.1 h
  · refine iff_of_false (by simp) ?_
    intro hc
    exact hc.2.2.2.2.2.1 h4
  · refine iff_of_false (by simp) ?_
    intro hc
    obtain ⟨⟨he1, he2⟩, he3⟩ := h5
    rw [hc.2.2.2.2.2.2.1 he2] at he3
    simp at he3
  · refine iff_of_false (by simp) ?_
    intro hc
    obtain ⟨⟨ha1, ha2⟩, ha3⟩ := h6
    rw [hc.2.2.2.2.2.2.2 ha2] at ha3
    simp at ha3
  · refine iff_of_true rfl ?_
    refine ⟨?_, by omega, ?_, ?_, ?_, h4, ?_, ?_⟩
    · tauto
    · tauto
    · tauto
    · tauto
    · intro ht
      by_cases hE : emailRegexTest (jsTrim ((splitPipe line).getD 3 [])) = true
      · exact hE
      · have hEf : emailRegexTest (jsTrim ((splitPipe line).getD 3 [])) = false := by
          simpa using hE
        exact absurd ⟨⟨ne_nil_of_jsTrim_ne_nil ht, ht⟩, hEf⟩ h5
    · intro ht
      by_cases hA : ageInRange (jsParseInt (jsTrim ((splitPipe line).getD 4 []))) = true
      · exact hA
      · have hAf : ageInRange (jsParseInt (jsTrim ((splitPipe line).getD 4 []))) = false := by
          simpa using hA
        exact absurd ⟨⟨ne_nil_of_jsTrim_ne_nil ht, ht⟩, hAf⟩ h6

/-- C5 (amended): when a valid line's `customerId` already exists in the
store, the batched sequential path (`processBatch`) and the worker path
(`processChunk`) both skip the insert and count a duplicate — never an error
— keying on `customerId` alone; the simpler CustomerService variant instead
looks the record up by `customerId` OR `email` and counts the hit as an
error (it has no duplicates counter). -/
theorem duplicate_handling (store : List CustomerRec) (line : List Char)
    (hv : validateLine line = true)
    (hd : existsById store (parseLine line) = true) :
    (processBatch store [parseLine line]).1 = ⟨0, 0, 1⟩ ∧
    (processBatch store [parseLine line]).2 = store ∧
    (processChunk [line] ⟨0, 1, 0⟩ store).1 = ⟨0, 0, 1⟩ ∧
    (simpleValidateLine line = true →
      (simpleProcessFile store [line]).1 = ⟨0, 1⟩) := by
  refine ⟨?_, ?_, ?_, ?_⟩
  · simp [processBatch, hd]
  · simp [processBatch, hd]
  · simp [processChunk, workerGo, workerConsumes, hv, hd]
  · intro hs
    have hany : store.any (fun r => r.customerId == (parseLine line).customerId ||
        r.email == (parseLine line).email) = true := by
      simp only [existsById, List.any_eq_true] at hd
      simp only [List.any_eq_true]
      obtain ⟨r, hr, hpr⟩ := hd
      exact ⟨r, hr, by simp_all⟩
    simp [simpleProcessFile, simpleGo, hs, hany]

/-- Witness for `duplicate_handling`: the store already holds customer `A`
and the incoming valid line has `customerId = A`. -/
theorem duplicate_handling_witness :
    (processBatch [custA] [parseLine ("A|Jane|Doe|new@x.com|25".toList)]).1 = ⟨0, 0, 1⟩ ∧
    (processBatch [custA] [parseLine ("A|Jane|Doe|new@x.com|25".toList)]).2 = [custA] ∧
    (processChunk ["A|Jane|Doe|new@x.com|25".toList] ⟨0, 1, 0⟩ [custA]).1 = ⟨0, 0, 1⟩ ∧
    (simpleValidateLine ("A|Jane|Doe|new@x.com|25".toList) = true →
      (simpleProcessFile [custA] ["A|Jane|Doe|new@x.com|25".toList]).1 = ⟨0, 1⟩) :=
  duplicate_handling [custA] ("A|Jane|Doe|new@x.com|25".toList) (by decide) (by decide)

/-- One unfolding of the planner loop. -/
theorem createChunksAux_unfold (chunkSize totalLines startLine chunkId : Nat) :
    createChunksAux chunkSize totalLines startLine chunkId =
      if startLine < totalLines ∧ 0 < chunkSize then
        { startLine := startLine
          endLine := min (startLine + chunkSize) totalLines
          chunkId := chunkId } ::
          createChunksAux chunkSize totalLines (startLine + chunkSize) (chunkId + 1)
      else [] := by
  rw [createChunksAux, dite_eq_ite]

/-- One step of the ceiling-division recurrence `⌈d/C⌉ = ⌈(d-C)/C⌉ + 1`. -/
theorem ceil_div_step (C d : Nat) (hC : 0 < C) (hd : 0 < d) :
    (d + C - 1) / C = (d - C + C - 1) / C + 1 := by
  rcases le_or_lt d C with h | h
  · have h0 : d - C = 0 := by omega
    rw [h0]
    have h1 : (0 + C - 1) / C = 0 := Nat.div_eq_of_lt (by omega)
    rw [h1]
    have e2 : d + C - 1 = (d - 1) + C := by omega
    rw [e2, Nat.add_div_right _ hC]
    have h3 : (d - 1) / C = 0 := Nat.div_eq_of_lt (by omega)
    omega
  · have e1 : d - C + C - 1 = (d - C - 1) + C := by omega
    have e2 : d + C - 1 = (d - 1) + C := by omega
    have e3 : d - 1 = (d - C - 1) + C := by omega
    rw [e1, e2, e3, Nat.add_div_right _ hC, Nat.add_div_right _ hC]

/-- Closed form of the planner loop: starting at line `s` with id `i`, it
emits `⌈(N - s)/C⌉` chunks, the `m`-th covering
`[s + m·C, min(s + (m+1)·C, N))`. -/
theorem createChunksAux_closed (C N : Nat) (hC : 0 < C) :
    ∀ fuel s i, N - s ≤ fuel →
      createChunksAux C N s i =
        (List.range ((N - s + C - 1) / C)).map
          (fun m => ⟨s + m * C, min (s + (m + 1) * C) N, i + m⟩) := by
  intro fuel
  induction fuel with
  | zero =>
    intro s i h
    rw [createChunksAux_unfold, if_neg (by omega)]
    have h0 : N - s = 0 := by omega
    rw [h0]
    have h1 : (0 + C - 1) / C = 0 := Nat.div_eq_of_lt (by omega)
    rw [h1]
    rfl
  | succ fuel ih =>
    intro s i h
    by_cases hs : s < N
    · rw [createChunksAux_unfold, if_pos ⟨hs, hC⟩, ih (s + C) (i + 1) (by omega)]
      have hd : 0 < N - s := by omega
      have hstep : (N - s + C - 1) / C = (N - (s + C) + C - 1) / C + 1 := by
        have hcs := ceil_div_step C (N - s) hC hd
        have e : N - s - C = N - (s + C) := by omega
        rw [e] at hcs
        exact hcs
      rw [hstep, List.range_succ_eq_map, List.map_cons, List.map_map]
      congr 1
      · simp
      · refine List.map_congr_left ?_
        intro m hm
        simp only [Function.comp_apply, Nat.succ_eq_add_one]
        have e1 : s + (m + 1) * C = s + C + m * C := by ring
        have e2 : s + (m + 1 + 1) * C = s + C + (m + 1) * C := by ring
        have e3 : i + (m + 1) = i + 1 + m := by omega
        rw [e1, e2, e3]
    · rw [createChunksAux_unfold, if_neg (by omega)]
      have h0 : N - s = 0 := by omega
      rw [h0]
      have h1 : (0 + C - 1) / C = 0 := Nat.div_eq_of_lt (by omega)
      rw [h1]
      rfl

/-- Closed form of `createChunks`. -/
theorem createChunks_closed (C N : Nat) (hC : 0 < C) :
    createChunks C N =
      (List.range ((N + C - 1) / C)).map
        (fun m => ⟨m * C, min ((m + 1) * C) N, m⟩) := by
  have h := createChunksAux_closed C N hC N 0 0 (by omega)
  rw [createChunks, h]
  simp

/-- C3: for every `N ≥ 0` and `C > 0` the planner emits exactly
`⌈N/C⌉ = (N + C - 1)/C` chunks; chunk `k` is `⟨k·C, min((k+1)·C, N), k⟩`
(ids ascending from 0); every chunk's half-open range is nonempty and
contained in `[0, N)`; and every line `x < N` lies in the range of exactly
one chunk index — the ranges are pairwise disjoint and their union is
exactly `[0, N)`. -/
theorem createChunks_spec (C N : Nat) (hC : 0 < C) :
    (createChunks C N).length = (N + C - 1) / C ∧
    (∀ k, k < (createChunks C N).length →
      (createChunks C N).getD k ⟨0, 0, 0⟩ = ⟨k * C, min ((k + 1) * C) N, k⟩) ∧
    (∀ ch ∈ createChunks C N, ch.endLine ≤ N ∧ ch.startLine < ch.endLine) ∧
    (∀ x, x < N → ∃! k, k < (createChunks C N).length ∧
      k * C ≤ x ∧ x < min ((k + 1) * C) N) := by
  have hcc := createChunks_closed C N hC
  have hlen : (createChunks C N).length = (N + C - 1) / C := by
    rw [hcc]; simp
  refine ⟨hlen, ?_, ?_, ?_⟩
  · intro k hk
    have hk2 : k < (N + C - 1) / C := by rw [← hlen]; exact hk
    rw [hcc, List.getD_eq_getElem _ _ (by simpa using hk2)]
    simp [List.getElem_map, List.getElem_range]
  · intro ch hch
    rw [hcc] at hch
    simp only [List.mem_map, List.mem_range] at hch
    obtain ⟨m, hm, rfl⟩ := hch
    have hN1 : 1 ≤ N := by
      rcases Nat.eq_zero_or_pos N with h0 | h0
      · subst h0
        have hz : (0 + C - 1) / C = 0 := Nat.div_eq_of_lt (by omega)
        rw [hz] at hm
        exact absurd hm (by omega)
      · exact h0
    refine ⟨min_le_right _ _, ?_⟩
    show m * C < min ((m + 1) * C) N
    have e : (m + 1) * C = m * C + C := by ring
    have hK : (m + 1) * C ≤ ((N + C - 1) / C) * C :=
      Nat.mul_le_mul_right C (by omega)
    have hKC : ((N + C - 1) / C) * C ≤ N + C - 1 := Nat.div_mul_le_self _ _
    have h2 : m * C + C ≤ N + C - 1 := by
      rw [e] at hK
      exact le_trans hK hKC
    refine lt_min ?_ ?_
    · calc m * C < m * C + C := Nat.lt_add_of_pos_right hC
        _ = (m + 1) * C := e.symm
    · have h4 : m * C + 1 ≤ N := by
        calc m * C + 1 = m * C + C + 1 - C := by omega
          _ ≤ N + C - 1 + 1 - C := by
              have h5 : m * C + C + 1 ≤ N + C - 1 + 1 := Nat.add_le_add_right h2 1
              exact Nat.sub_le_sub_right h5 C
          _ = N := by omega
      omega
  · intro x hx
    have hxC : x / C < (N + C - 1) / C := by
      have e : N + C - 1 = (N - 1) + C := by omega
      rw [e, Nat.add_div_right _ hC]
      exact Nat.lt_succ_of_le (Nat.div_le_div_right (by omega))
    refine ⟨x / C, ⟨?_, Nat.div_mul_le_self x C, ?_⟩, ?_⟩
    · rw [hlen]; exact hxC
    · refine lt_min ?_ hx
      have hdm := Nat.div_add_mod x C
      have hmod : x % C < C := Nat.mod_lt x hC
      calc x = C * (x / C) + x % C := hdm.symm
        _ < C * (x / C) + C := Nat.add_lt_add_left hmod _
        _ = (x / C + 1) * C := by ring
    · rintro y ⟨hy1, hy2, hy3⟩
      have hy4 : x < (y + 1) * C := lt_of_lt_of_le hy3 (min_le_left _ _)
      exact (Nat.div_eq_of_lt_le hy2 hy4).symm

/-- Witness for `createChunks_spec` at chunk size 3 over 7 lines. -/
theorem createChunks_spec_witness :
    (createChunks 3 7).length = (7 + 3 - 1) / 3 ∧
    (∀ k, k < (createChunks 3 7).length →
      (createChunks 3 7).getD k ⟨0, 0, 0⟩ = ⟨k * 3, min ((k + 1) * 3) 7, k⟩) ∧
    (∀ ch ∈ createChunks 3 7, ch.endLine ≤ 7 ∧ ch.startLine < ch.endLine) ∧
    (∀ x, x < 7 → ∃! k, k < (createChunks 3 7).length ∧
      k * 3 ≤ x ∧ x < min ((k + 1) * 3) 7) :=
  createChunks_spec 3 7 (by decide)

/-- The coordinator-loop invariant: never more than `maxWorkers` active
workers; the dispatch log is exactly `0, 1, …, next-1` in order; the cursor
never passes the chunk count; every completed or active chunk was
dispatched; and the promise is resolved only with all chunks completed. -/
def PoolInv (numChunks maxWorkers : Nat) (s : PoolState) : Prop :=
  s.active.length ≤ maxWorkers ∧
  s.log = List.range s.next ∧
  s.next ≤ numChunks ∧
  s.completed + s.active.length ≤ s.next ∧
  (s.resolved = true → s.completed = numChunks)

/-- `processNextChunk` preserves the coordinator invariant. -/
theorem dispatchOne_inv (numChunks maxWorkers : Nat) (s : PoolState)
    (h : PoolInv numChunks maxWorkers s) :
    PoolInv numChunks maxWorkers (dispatchOne numChunks maxWorkers s) := by
  obtain ⟨h1, h2, h3, h4, h5⟩ := h
  unfold dispatchOne
  split_ifs with ha hb
  · exact ⟨h1, h2, h3, h4, h5⟩
  · exact ⟨h1, h2, h3, h4, h5⟩
  · refine ⟨?_, ?_, ?_, ?_, ?_⟩
    · show (s.active ++ [s.next]).length ≤ maxWorkers
      rw [List.length_append]
      simp only [List.length_cons, List.length_nil]
      omega
    · show s.log ++ [s.next] = List.range (s.next + 1)
      rw [h2, List.range_succ]
    · show s.next + 1 ≤ numChunks
      omega
    · show s.completed + (s.active ++ [s.next]).length ≤ s.next + 1
      rw [List.length_append]
      simp only [List.length_cons, List.length_nil]
      omega
    · exact h5

/-- A worker completion (fold + re-dispatch + possible resolution)
preserves the coordinator invariant. -/
theorem completeChunk_inv (numChunks maxWorkers c : Nat) (s : PoolState)
    (hc : c ∈ s.active) (h : PoolInv numChunks maxWorkers s) :
    PoolInv numChunks maxWorkers (completeChunk numChunks maxWorkers c s) := by
  obtain ⟨h1, h2, h3, h4, h5⟩ := h
  have hlen : (s.active.erase c).length = s.active.length - 1 :=
    List.length_erase_of_mem hc
  have hpos : 1 ≤ s.active.length :=
    List.length_pos.mpr (List.ne_nil_of_mem hc)
  have hs1 : PoolInv numChunks maxWorkers
      { s with active := s.active.erase c, completed := s.completed + 1 } := by
    refine ⟨?_, h2, h3, ?_, ?_⟩
    · show (s.active.erase c).length ≤ maxWorkers
      rw [hlen]
      omega
    · show s.completed + 1 + (s.active.erase c).length ≤ s.next
      rw [hlen]
      omega
    · intro hr
      have h6 := h5 hr
      omega
  have hs2 := dispatchOne_inv numChunks maxWorkers _ hs1
  show PoolInv numChunks maxWorkers
    (if (dispatchOne numChunks maxWorkers
          { s with active := s.active.erase c, completed := s.completed + 1 }).completed = numChunks
     then { dispatchOne numChunks maxWorkers
          { s with active := s.active.erase c, completed := s.completed + 1 } with resolved := true }
     else dispatchOne numChunks maxWorkers
          { s with active := s.active.erase c, completed := s.completed + 1 })
  split_ifs with hfin
  · obtain ⟨g1, g2, g3, g4, g5⟩ := hs2
    exact ⟨g1, g2, g3, g4, fun _ => hfin⟩
  · exact hs2

/-- The empty initial state satisfies the invariant. -/
theorem initPool_inv (numChunks maxWorkers : Nat) :
    PoolInv numChunks maxWorkers initPoolState := by
  refine ⟨by simp [initPoolState, PoolInv], by simp [initPoolState], ?_, ?_, ?_⟩
  · show (0 : Nat) ≤ numChunks
    omega
  · show 0 + ([] : List Nat).length ≤ 0
    simp
  · intro hr
    simp [initPoolState] at hr

/-- The start-up dispatch loop establishes the invariant. -/
theorem startPool_inv (numChunks maxWorkers : Nat) :
    PoolInv numChunks maxWorkers (startPool numChunks maxWorkers) := by
  unfold startPool
  generalize min maxWorkers numChunks = n
  induction n with
  | zero => simpa using initPool_inv numChunks maxWorkers
  | succ n ih =>
    rw [Function.iterate_succ_apply']
    exact dispatchOne_inv _ _ _ ih

/-- Every reachable state of a run satisfies the invariant. -/
theorem poolReachable_inv (numChunks maxWorkers : Nat) (s : PoolState)
    (h : PoolReachable numChunks maxWorkers s) :
    PoolInv numChunks maxWorkers s := by
  induction h with
  | refl => exact startPool_inv numChunks maxWorkers
  | tail hsteps hstep ih =>
    cases hstep with
    | complete c t hc => exact completeChunk_inv _ _ _ _ hc ih

/-- C6: in every reachable state of a pooled run, at most `maxWorkers`
Chunk Workers are active concurrently; the chunks dispatched so far are
exactly `0, 1, …, next-1` in strictly ascending dispatch order; and the
run's promise is resolved only when every chunk's WorkerResult has been
folded (`completed = numChunks`). -/
theorem pool_run_invariants (numChunks maxWorkers : Nat) (s : PoolState)
    (h : PoolReachable numChunks maxWorkers s) :
    s.active.length ≤ maxWorkers ∧
    s.log = List.range s.next ∧
    (s.resolved = true → s.completed = numChunks) := by
  obtain ⟨h1, h2, h3, h4, h5⟩ := poolReachable_inv numChunks maxWorkers s h
  exact ⟨h1, h2, h5⟩

/-- Witness for `pool_run_invariants`: the spec's own scenario of 10 chunks
and 4 workers, at the run's initial (trivially reachable) state. -/
theorem pool_run_invariants_witness :
    (startPool 10 4).active.length ≤ 4 ∧
    (startPool 10 4).log = List.range (startPool 10 4).next ∧
    ((startPool 10 4).resolved = true → (startPool 10 4).completed = 10) :=
  pool_run_invariants 10 4 (startPool 10 4) Relation.ReflTransGen.refl
